import Mathlib

/-!
# Verification of the exclusive-ownership decomposition pipeline

Shallow embedding of `scripts/python/decompose-parallel.py`,
`scripts/python/spawn-agents.py` and `scripts/python/integrate-parallel-work.py`.

Python dicts (which preserve insertion order) are modelled as association
lists `List (String × β)`; dict assignment updates the value in place when the
key is present and appends otherwise.  Machine floats (the LLM confidence
score) are modelled as rationals.  Functions that `raise` are modelled in
`Except String`.
-/

namespace DecomposeParallel

/-- A string `needle` occurs as a substring of `hay` (Python `needle in hay`). -/
def containsSub (hay needle : String) : Bool :=
  hay.toList.tails.any (fun t => needle.toList.isPrefixOf t)

/-- Python `str.lower()` (ASCII case mapping, as used by the rule tables). -/
def strToLower (s : String) : String :=
  String.mk (s.toList.map Char.toLower)

/-- Split a character list at every occurrence of `c` (Python
`str.split(c)` for a one-character separator, as used with `"\n"`, `"/"`). -/
def splitOnChar (c : Char) : List Char → List (List Char)
  | [] => [[]]
  | x :: xs =>
      match splitOnChar c xs with
      | [] => [[x]]
      | h :: t => if x == c then [] :: h :: t else (x :: h) :: t

/-- `str.split(c)` returning strings. -/
def strSplitOn (c : Char) (s : String) : List String :=
  (splitOnChar c s.toList).map String.mk

/-- Python `str.strip()`: drop leading and trailing whitespace. -/
def strStrip (s : String) : String :=
  String.mk (((s.toList.dropWhile Char.isWhitespace).reverse.dropWhile
    Char.isWhitespace).reverse)

/-- Python `str.replace(pat, rep)` (all non-overlapping occurrences, left to
right), with fuel equal to the haystack length; the searched patterns
(`".ts"`, `".js"`) are non-empty, so the fuel never runs out early. -/
def replaceFuel (pat rep : List Char) : Nat → List Char → List Char
  | 0, hay => hay
  | _ + 1, [] => []
  | fuel + 1, x :: xs =>
      if pat.isPrefixOf (x :: xs) then
        rep ++ replaceFuel pat rep fuel ((x :: xs).drop pat.length)
      else x :: replaceFuel pat rep fuel xs

/-- Python `str.replace(pat, rep)`. -/
def strReplace (s pat rep : String) : String :=
  String.mk (replaceFuel pat.toList rep.toList s.toList.length s.toList)

/-- `FileOperation` dataclass from decompose-parallel.py. -/
structure FileOperation where
  operation : String
  domain : String
  requirement : String
deriving DecidableEq, Repr

/-- `WorkDomain` dataclass from decompose-parallel.py. -/
structure WorkDomain where
  id : String
  role : String
  focus_area : String
  estimated_time : Nat
  complexity : String
  type : String
  dependencies : List String
deriving DecidableEq, Repr

/-- `Agent` dataclass from decompose-parallel.py. -/
structure Agent where
  id : String
  role : String
  focus_area : String
  dependencies : List String
  files_to_create : List String
  files_to_modify : List String
  test_contracts : List String
  validation_criteria : List String
  estimated_time : Nat
  requirements : List String
  can_start_immediately : Bool
deriving DecidableEq, Repr

/-- `LinearIssue` dataclass from decompose-parallel.py. -/
structure LinearIssue where
  id : String
  title : String
  description : String
  requirements : List String
deriving DecidableEq, Repr

/-- One entry of the `patterns` table in
`extract_file_operations_from_requirement`: keyword list, domain tag and the
path → action dict. -/
structure PatternRule where
  keywords : List String
  domain : String
  files : List (String × String)
deriving DecidableEq, Repr

/-- The fixed `patterns` table of
`ExclusiveOwnershipDecomposer.extract_file_operations_from_requirement`. -/
def patterns : List PatternRule :=
  [ ⟨["auth", "login", "token"], "auth",
      [("lib/auth/authentication.ts", "CREATE"),
       ("lib/auth/token-manager.ts", "CREATE"),
       ("middleware/auth.ts", "CREATE"),
       ("types/auth.ts", "CREATE")]⟩,
    ⟨["form", "validation", "input"], "forms",
      [("components/forms/DynamicForm.tsx", "CREATE"),
       ("lib/form-validation.ts", "CREATE"),
       ("hooks/useFormState.ts", "CREATE"),
       ("types/form.ts", "CREATE")]⟩,
    ⟨["api", "endpoint", "server"], "backend",
      [("pages/api/[...slug].ts", "CREATE"),
       ("lib/api/client.ts", "CREATE"),
       ("lib/api/handlers.ts", "CREATE"),
       ("types/api.ts", "CREATE")]⟩,
    ⟨["data", "storage", "database"], "data",
      [("lib/database/queries.ts", "CREATE"),
       ("lib/database/models.ts", "CREATE"),
       ("lib/storage/manager.ts", "CREATE"),
       ("types/data.ts", "CREATE")]⟩,
    ⟨["docker", "deploy", "infrastructure"], "infrastructure",
      [("Dockerfile", "CREATE"),
       ("docker-compose.yml", "CREATE"),
       ("scripts/deploy.sh", "CREATE"),
       ("scripts/build.sh", "CREATE")]⟩,
    ⟨["write", "file operations", "create files"], "file_operations",
      [("lib/operations/write-operations.ts", "CREATE"),
       ("lib/operations/file-writer.ts", "CREATE"),
       ("lib/validation/write-validation.ts", "CREATE"),
       ("types/operations.ts", "CREATE")]⟩,
    ⟨["component", "ui", "interface"], "ui",
      [("components/ui/Button.tsx", "CREATE"),
       ("components/ui/Input.tsx", "CREATE"),
       ("components/common/Layout.tsx", "CREATE"),
       ("styles/components.css", "CREATE")]⟩ ]

/-- Python dict assignment `d[k] = v` on an insertion-ordered dict: update in
place when present, append otherwise. -/
def dictSet : List (String × FileOperation) → String → FileOperation →
    List (String × FileOperation)
  | [], k, v => [(k, v)]
  | (k', v') :: rest, k, v =>
      if k' == k then (k', v) :: rest else (k', v') :: dictSet rest k v

/-- `extract_file_operations_from_requirement`, parameterised by the rule
table: lower-case the requirement, keep the rules whose keyword test matches,
then write each rule's files into the `operations` dict in order. -/
def extractFileOperationsWith (table : List PatternRule) (requirement : String) :
    List (String × FileOperation) :=
  let reqLower := strToLower requirement
  let matching := table.filter (fun p => p.keywords.any (fun w => containsSub reqLower w))
  matching.foldl
    (fun ops p =>
      p.files.foldl
        (fun ops fo => dictSet ops fo.1 ⟨fo.2, p.domain, requirement⟩) ops)
    []

/-- `extract_file_operations_from_requirement` with the fixed table. -/
def extractFileOperations (requirement : String) : List (String × FileOperation) :=
  extractFileOperationsWith patterns requirement

/-- `self.all_file_operations[file].append(entry)` with key creation:
append the operation to the list at the key, creating the key at the end of
the dict when absent. -/
def addOp : List (String × List FileOperation) → String → FileOperation →
    List (String × List FileOperation)
  | [], k, e => [(k, [e])]
  | (k', es) :: rest, k, e =>
      if k' == k then (k', es ++ [e]) :: rest else (k', es) :: addOp rest k e

/-- `analyze_file_operations`, parameterised by the rule table: merge the
per-requirement operation dicts into `all_file_operations`. -/
def analyzeFileOperationsWith (table : List PatternRule) (reqs : List String) :
    List (String × List FileOperation) :=
  reqs.foldl
    (fun m req => (extractFileOperationsWith table req).foldl
      (fun m fo => addOp m fo.1 fo.2) m)
    []

/-- `analyze_file_operations` with the fixed table. -/
def analyzeFileOperations (reqs : List String) : List (String × List FileOperation) :=
  analyzeFileOperationsWith patterns reqs

/-- `domain_groups[domain].append(file)` on a `defaultdict(list)`. -/
def groupAdd : List (String × List String) → String → String →
    List (String × List String)
  | [], d, f => [(d, [f])]
  | (k, fs) :: rest, d, f =>
      if k == d then (k, fs ++ [f]) :: rest else (k, fs) :: groupAdd rest d f

/-- Default used only to totalise `operations[0]` (the operation lists stored
in `all_file_operations` are never empty). -/
def defaultFO : FileOperation := ⟨"", "", ""⟩

/-- The grouping loop of `create_exclusive_domains`: the domain of each file
is the domain of its first-seen operation. -/
def domainGroups (m : List (String × List FileOperation)) :
    List (String × List String) :=
  m.foldl (fun g p => groupAdd g (p.2.headD defaultFO).domain p.1) []

/-- The duplicate-path check of `create_exclusive_domains`, linearised over
the nested domain/file loops (the loops visit exactly the concatenation of
the domains' file lists, threading one `all_domain_files` set). -/
def checkSeen : List String → List String → Except String Unit
  | [], _ => .ok ()
  | f :: rest, seen =>
      if f ∈ seen then .error s!"File conflict detected: {f} appears in multiple domains"
      else checkSeen rest (f :: seen)

/-- `create_exclusive_domains`: group by first-seen domain, then fail if any
file appears in more than one domain. -/
def createExclusiveDomains (m : List (String × List FileOperation)) :
    Except String (List (String × List String)) :=
  match checkSeen ((domainGroups m).flatMap (fun p => p.2)) [] with
  | .error e => .error e
  | .ok _ => .ok (domainGroups m)

/-- Python `str.capitalize()`: first character upper-cased, rest lower-cased. -/
def pyCapitalize (s : String) : String :=
  match s.toList with
  | [] => ""
  | c :: rest => String.mk (c.toUpper :: rest.map Char.toLower)

/-- The `domain_configs` table of `create_agent_for_domain`. -/
def domainConfigs : List (String × WorkDomain) :=
  [ ("auth", ⟨"auth_agent", "Authentication & Authorization", "Authentication",
        35, "high", "security", []⟩),
    ("forms", ⟨"forms_agent", "Form Components & Validation", "Forms",
        25, "medium", "frontend", ["auth_agent"]⟩),
    ("backend", ⟨"backend_agent", "API Endpoints & Server Logic", "Backend",
        40, "high", "backend", ["data_agent"]⟩),
    ("data", ⟨"data_agent", "Database & Data Management", "Data",
        30, "high", "data", []⟩),
    ("infrastructure", ⟨"infrastructure_agent", "Infrastructure & Deployment",
        "Infrastructure", 20, "medium", "infrastructure", []⟩),
    ("file_operations", ⟨"file_operations_agent",
        "File Operations & Write Capabilities", "File Operations",
        30, "medium", "feature", ["data_agent"]⟩),
    ("ui", ⟨"ui_agent", "UI Components & Interface", "UI",
        25, "medium", "frontend", ["auth_agent"]⟩) ]

/-- `domain_configs.get(domain, WorkDomain(...generic...))`. -/
def configFor (domain : String) : WorkDomain :=
  (domainConfigs.lookup domain).getD
    ⟨domain ++ "_agent", pyCapitalize domain ++ " Implementation", domain,
      25, "medium", "feature", []⟩

/-- `pathlib.Path(p).name`: the last slash-separated component. -/
def pathName (p : String) : String :=
  (strSplitOn '/' p).getLastD p

/-- Index of the last `.` in the character list, if any. -/
def lastDotIdx (cs : List Char) : Option Nat :=
  ((List.range cs.length).filter (fun i => cs.getD i ' ' == '.')).getLast?

/-- `pathlib.Path(p).stem` / `.suffix`: split the file name at its last dot,
except that a dot at position 0 (a leading-dot name) yields no suffix. -/
def splitExt (p : String) : String × String :=
  let name := pathName p
  let cs := name.toList
  match lastDotIdx cs with
  | none => (name, "")
  | some i =>
      if i == 0 then (name, "")
      else (String.mk (cs.take i), String.mk (cs.drop i))

/-- `generate_test_contracts`: for the first three files, `stem + ".test.tsx"`
when the suffix is `.tsx`, else `stem + ".test.ts"`. -/
def generateTestContracts (_domain : String) (files : List String) : List String :=
  (files.take 3).map (fun f =>
    let se := splitExt f
    se.1 ++ (if se.2 == ".tsx" then ".test.tsx" else ".test.ts"))

/-- `generate_validation_criteria`. -/
def generateValidationCriteria (domain : String) (_files : List String) : List String :=
  [ s!"All {domain} files are created successfully",
    s!"{domain} functionality works as expected",
    s!"No errors in {domain} implementation",
    s!"{domain} tests pass successfully" ]

/-- `get_requirements_for_domain`: requirements of every operation whose
file's first-seen domain is `domain`, deduplicated (`list(set(...))`). -/
def getRequirementsForDomain (m : List (String × List FileOperation))
    (domain : String) : List String :=
  ((m.filter (fun p => (p.2.headD defaultFO).domain == domain)).flatMap
    (fun p => p.2.map (·.requirement))).dedup

/-- `create_agent_for_domain`: config lookup, CREATE/MODIFY split by the
first operation of each file, templated contracts and criteria, and
`can_start_immediately = not config.dependencies`. -/
def createAgentForDomain (m : List (String × List FileOperation))
    (domain : String) (files : List String) : Agent :=
  let config := configFor domain
  let isCreate := fun f =>
    match (m.lookup f).getD [] with
    | op :: _ => op.operation == "CREATE"
    | [] => false
  { id := config.id
    role := config.role
    focus_area := config.focus_area
    dependencies := config.dependencies
    files_to_create := files.filter isCreate
    files_to_modify := files.filter (fun f => !isCreate f)
    test_contracts := generateTestContracts domain files
    validation_criteria := generateValidationCriteria domain files
    estimated_time := config.estimated_time
    requirements := getRequirementsForDomain m domain
    can_start_immediately := config.dependencies.isEmpty }

/-- `generate_exclusive_agents`: one agent per exclusive domain, in domain
order. -/
def generateExclusiveAgents (m : List (String × List FileOperation))
    (domains : List (String × List String)) : List Agent :=
  domains.map (fun p => createAgentForDomain m p.1 p.2)

/-- The inner loop of `validate_no_conflicts` for one agent: claim each of
the agent's files in the `file_ownership` dict, failing on a file already
claimed. -/
def claimFiles : List String → String → List (String × String) →
    Except String (List (String × String))
  | [], _, own => .ok own
  | f :: fs, aid, own =>
      if own.any (fun p => p.1 == f) then
        .error s!"CONFLICT: File {f} is assigned to both {aid} and another agent"
      else claimFiles fs aid (own ++ [(f, aid)])

/-- `validate_no_conflicts`: thread the ownership dict over all agents'
`files_to_create + files_to_modify`. -/
def validateNoConflictsGo : List Agent → List (String × String) → Except String Unit
  | [], _ => .ok ()
  | a :: rest, own =>
      match claimFiles (a.files_to_create ++ a.files_to_modify) a.id own with
      | .error e => .error e
      | .ok own' => validateNoConflictsGo rest own'

/-- `validate_no_conflicts` starting from an empty ownership map. -/
def validateNoConflicts (agents : List Agent) : Except String Unit :=
  validateNoConflictsGo agents []

/-- The ready test of `calculate_merge_order`:
`not agent.dependencies or all(dep in ordered for dep in agent.dependencies)`. -/
def readyB (ordered : List String) (a : Agent) : Bool :=
  a.dependencies.all (fun d => decide (d ∈ ordered))

/-- The `while remaining:` loop of `calculate_merge_order`, with fuel.  Each
iteration either moves `ready[0]` from `remaining` to `ordered` or, when no
agent is ready, appends all remaining agents in their original order and
stops; fuel `remaining.length` is exactly enough, so the fuel-exhausted base
case (which returns the same append) is never the deciding branch. -/
def mergeOrderFuel : Nat → List Agent → List String → List String
  | 0, remaining, ordered => ordered ++ remaining.map (·.id)
  | fuel + 1, remaining, ordered =>
      match remaining.filter (readyB ordered) with
      | [] => ordered ++ remaining.map (·.id)
      | next :: _ => mergeOrderFuel fuel (remaining.erase next) (ordered ++ [next.id])

/-- `calculate_merge_order`. -/
def calculateMergeOrder (agents : List Agent) : List String :=
  mergeOrderFuel agents.length agents []

/-- `re.match(r"^\s*\d+\.\s*(.+)", line)` followed by `.strip()` on the
captured group: optional leading whitespace, one or more digits, a dot, then
a non-empty rest whose stripped form is the requirement. -/
def parseNumberedLine (line : String) : Option String :=
  let cs := line.toList.dropWhile Char.isWhitespace
  let digits := cs.takeWhile Char.isDigit
  let rest := cs.dropWhile Char.isDigit
  if digits.isEmpty then none
  else
    match rest with
    | '.' :: rest2 => if rest2.isEmpty then none else some (strStrip (String.mk rest2))
    | _ => none

/-- `extract_requirements`: numbered-list lines, falling back to the whole
(stripped) description as a single requirement. -/
def extractRequirements (description : String) : List String :=
  let reqs := (strSplitOn '\n' description).filterMap parseNumberedLine
  if reqs.isEmpty then [strStrip description] else reqs

/-- A `LinearIssue` as built by `load_linear_issue` from a cached record. -/
def issueFromCache (id title description : String) : LinearIssue :=
  ⟨id, title, description, extractRequirements description⟩

/-- One record of the `parallelAgents` array, as produced by
`agent_to_dict`. -/
structure AgentRecord where
  agentId : String
  agentRole : String
  focusArea : String
  dependencies : List String
  filesToCreate : List String
  filesToModify : List String
  testContracts : List String
  validationCriteria : List String
  estimatedTime : Nat
  canStartImmediately : Bool
deriving DecidableEq, Repr

/-- `agent_to_dict`. -/
def agentToDict (a : Agent) : AgentRecord :=
  ⟨a.id, a.role, a.focus_area, a.dependencies, a.files_to_create,
    a.files_to_modify, a.test_contracts, a.validation_criteria,
    a.estimated_time, a.can_start_immediately⟩

/-- The deployment plan document (the fields shared by the
`exclusive_ownership` and `llm_hybrid` shapes; `agentOwnership` and
`totalFiles` carry the strategy-specific extras). -/
structure DeploymentPlan where
  taskId : String
  taskTitle : String
  decompositionStrategy : String
  conflictResolution : String
  parallelAgents : List AgentRecord
  mergeOrder : List String
  validationSteps : List String
  totalFiles : Nat
  agentOwnership : List (String × List String)
  llmConfidence : Option ℚ
deriving DecidableEq, Repr

/-- `generate_deployment_plan` (pattern-based path). -/
def generateDeploymentPlan (issue : LinearIssue)
    (m : List (String × List FileOperation)) (agents : List Agent) :
    DeploymentPlan :=
  { taskId := issue.id
    taskTitle := issue.title
    decompositionStrategy := "exclusive_ownership"
    conflictResolution := "eliminated_by_design"
    parallelAgents := agents.map agentToDict
    mergeOrder := calculateMergeOrder agents
    validationSteps :=
      [ "Validate exclusive file ownership", "Run individual agent tests",
        "Integration testing", "Full system validation" ]
    totalFiles := m.length
    agentOwnership := agents.map (fun a =>
      (a.id, a.files_to_create ++ a.files_to_modify))
    llmConfidence := none }

/-- The pattern-based pipeline of `decompose` (steps 3 onward), parameterised
by the rule table: analyze, create exclusive domains, generate agents,
validate, build the plan; the two `ValueError`s become `Except.error`. -/
def patternDecomposeWith (table : List PatternRule) (issue : LinearIssue) :
    Except String DeploymentPlan :=
  let m := analyzeFileOperationsWith table issue.requirements
  match createExclusiveDomains m with
  | .error e => .error e
  | .ok domains =>
      let agents := generateExclusiveAgents m domains
      match validateNoConflicts agents with
      | .error e => .error e
      | .ok _ => .ok (generateDeploymentPlan issue m agents)

/-- The pattern-based pipeline with the fixed rule table. -/
def patternDecompose (issue : LinearIssue) : Except String DeploymentPlan :=
  patternDecomposeWith patterns issue

/-- One agent record of an LLM analysis result. -/
structure LLMAgentData where
  agentId : String
  agentRole : String
  focusArea : String
  dependencies : List String
  filesToCreate : List String
  filesToModify : List String
  estimatedTime : Nat
deriving DecidableEq, Repr

/-- The result of the optional LLM decomposer: a confidence score and agent
records (plus free-text analysis fields not used by the control flow). -/
structure LLMResult where
  confidence : ℚ
  agents : List LLMAgentData
  projectType : String
  reasoning : String
  parallelizationStrategy : String
deriving DecidableEq, Repr

/-- The per-agent body of `convert_llm_result_to_deployment_plan`. -/
def convertLLMAgent (d : LLMAgentData) : Agent :=
  { id := d.agentId
    role := d.agentRole
    focus_area := d.focusArea
    dependencies := d.dependencies
    files_to_create := d.filesToCreate
    files_to_modify := d.filesToModify
    test_contracts := d.filesToCreate.map (fun f =>
      strReplace (strReplace f ".ts" ".test.ts") ".js" ".test.js")
    validation_criteria :=
      [ s!"All {d.focusArea} files are created successfully",
        s!"{d.focusArea} functionality works as expected",
        s!"No errors in {d.focusArea} implementation",
        s!"{d.focusArea} tests pass successfully" ]
    estimated_time := d.estimatedTime
    requirements := []
    can_start_immediately := d.dependencies.isEmpty }

/-- `convert_llm_result_to_deployment_plan`: convert every LLM agent record
and assemble the `llm_hybrid` plan; no conflict validation is performed. -/
def convertLLMResultToPlan (issue : LinearIssue) (r : LLMResult) : DeploymentPlan :=
  let agents := r.agents.map convertLLMAgent
  { taskId := issue.id
    taskTitle := issue.title
    decompositionStrategy := "llm_hybrid"
    conflictResolution := "llm_analyzed"
    parallelAgents := agents.map agentToDict
    mergeOrder := calculateMergeOrder agents
    validationSteps :=
      [ "Run LLM-generated agent tests", "Integration testing",
        "Full system validation" ]
    totalFiles := (agents.map (fun a =>
      a.files_to_create.length + a.files_to_modify.length)).sum
    agentOwnership := []
    llmConfidence := some r.confidence }

/-- `try_hybrid_analysis`: `none` models an unavailable analyzer (import
failure or exception); a result is adopted exactly when
`confidence >= 0.8`. -/
def tryHybridAnalysis (llm : Option LLMResult) (issue : LinearIssue) :
    Option DeploymentPlan :=
  match llm with
  | none => none
  | some r =>
      if r.confidence ≥ mkRat 4 5 then some (convertLLMResultToPlan issue r) else none

/-- The `decompose` control flow: consult the hybrid analyzer when enabled
and fall back to the pattern-based pipeline otherwise. -/
def decompose (useHybrid : Bool) (llm : Option LLMResult) (issue : LinearIssue) :
    Except String DeploymentPlan :=
  if useHybrid then
    match tryHybridAnalysis llm issue with
    | some plan => .ok plan
    | none => patternDecomposeWith patterns issue
  else patternDecomposeWith patterns issue

/-- A YAML/JSON value, as loaded by `yaml.safe_load` / `json.load`. -/
inductive YVal where
  | str : String → YVal
  | nat : Nat → YVal
  | rat : ℚ → YVal
  | bool : Bool → YVal
  | list : List YVal → YVal
  | dict : List (String × YVal) → YVal

/-- Serialisation of one agent record (`agent_to_dict` key order). -/
def agentRecordToDoc (a : AgentRecord) : YVal :=
  .dict
    [ ("agentId", .str a.agentId),
      ("agentRole", .str a.agentRole),
      ("focusArea", .str a.focusArea),
      ("dependencies", .list (a.dependencies.map .str)),
      ("filesToCreate", .list (a.filesToCreate.map .str)),
      ("filesToModify", .list (a.filesToModify.map .str)),
      ("testContracts", .list (a.testContracts.map .str)),
      ("validationCriteria", .list (a.validationCriteria.map .str)),
      ("estimatedTime", .nat a.estimatedTime),
      ("canStartImmediately", .bool a.canStartImmediately) ]

/-- The document `save_deployment_plan` persists (via `yaml.dump` with
`sort_keys=False`): the exact top-level keys of the dict built by
`generate_deployment_plan` / `convert_llm_result_to_deployment_plan`; the
merge order lives under `integrationPlan.mergeOrder`. -/
def planToDoc (p : DeploymentPlan) : YVal :=
  .dict
    ([ ("taskId", .str p.taskId),
       ("taskTitle", .str p.taskTitle),
       ("decompositionStrategy", .str p.decompositionStrategy),
       ("conflictResolution", .str p.conflictResolution),
       ("parallelAgents", .list (p.parallelAgents.map agentRecordToDoc)) ]
      ++ (if p.decompositionStrategy == "llm_hybrid"
           then [("totalFiles", .nat p.totalFiles)] else [])
      ++ [ ("integrationPlan", .dict
              ([ ("mergeOrder", .list (p.mergeOrder.map .str)),
                 ("validationSteps", .list (p.validationSteps.map .str)) ]
                ++ (if p.decompositionStrategy == "llm_hybrid"
                     then [("estimatedIntegrationTime", .str "10 minutes")]
                     else []))) ]
      ++ (if p.decompositionStrategy == "llm_hybrid"
           then [ ("llmAnalysis", .dict
                    [ ("confidence",
                        .rat ((p.llmConfidence).getD 0)) ]) ]
           else [ ("exclusiveOwnership", .dict
                    [ ("validated", .bool true),
                      ("totalFiles", .nat p.totalFiles),
                      ("agentOwnership", .dict (p.agentOwnership.map
                        (fun q => (q.1, YVal.list (q.2.map .str))))) ]) ]))

/-- Python `key in dict` on a loaded document. -/
def docHasKey (v : YVal) (k : String) : Bool :=
  match v with
  | .dict d => d.any (fun p => p.1 == k)
  | _ => false

/-- Python truthiness of a loaded document (`not deployment_plan`). -/
def docTruthy (v : YVal) : Bool :=
  match v with
  | .str s => !s.isEmpty
  | .nat n => n != 0
  | .rat q => q != 0
  | .bool b => b
  | .list l => !l.isEmpty
  | .dict d => !d.isEmpty

/-- The plan-consumption step of `integrate_parallel_work`: reject the plan
unless it is truthy and has a top-level `integration_order` key; otherwise
return `deployment_plan["integration_order"]`. -/
def integrationReadMergeOrder (doc : YVal) : Except String YVal :=
  if !docTruthy doc || !docHasKey doc "integration_order" then
    .error "Invalid deployment plan format"
  else
    match doc with
    | .dict d => .ok ((d.lookup "integration_order").getD (.list []))
    | _ => .error "Invalid deployment plan format"

/-- The agent context written at spawn time (`create_agent_context` in
spawn-agents.py); `list(set(...))` is modelled by `dedup`. -/
structure AgentContext where
  agentId : String
  taskId : String
  taskTitle : String
  branchName : String
  workTreePath : String
  dependencies : List String
  allFilesToCreate : List String
  allFilesToModify : List String
  allTestContracts : List String
  allValidationCriteria : List String
  canStartImmediately : Bool
  estimatedTime : Nat
deriving DecidableEq, Repr

/-- `create_agent_context`: collect the plan records with this agent id and
aggregate their fields; `canStartImmediately` is true when every instance
has an empty dependency list. -/
def createAgentContext (plan : DeploymentPlan) (agentId branchName worktreePath : String) :
    AgentContext :=
  let agentData := plan.parallelAgents.filter (fun a => a.agentId == agentId)
  { agentId := agentId
    taskId := plan.taskId
    taskTitle := plan.taskTitle
    branchName := branchName
    workTreePath := worktreePath
    dependencies := (agentData.flatMap (fun a => a.dependencies)).dedup
    allFilesToCreate := (agentData.flatMap (fun a => a.filesToCreate)).dedup
    allFilesToModify := (agentData.flatMap (fun a => a.filesToModify)).dedup
    allTestContracts := (agentData.flatMap (fun a => a.testContracts)).dedup
    allValidationCriteria := (agentData.flatMap (fun a => a.validationCriteria)).dedup
    canStartImmediately := agentData.all (fun a => a.dependencies.length == 0)
    estimatedTime := (agentData.map (fun a => a.estimatedTime)).sum }

/-- The external facts `integrate_agent` consults for one agent: whether its
workspace directory exists, whether a package manager is installed, and the
incremental test-gate outcome after merging this agent's files. -/
structure IntegrationEnv where
  workspaceExists : String → Bool
  hasPackageManager : Bool
  testPasses : String → Bool

/-- `integrate_agent`: returns (continue?, committed?).  A missing workspace
is skipped (success, nothing committed); with no package manager the tests
are skipped and nothing is committed; a failing test gate returns failure
without any rollback; otherwise the agent's merge is committed. -/
def integrateAgent (env : IntegrationEnv) (agent : String) : Bool × Bool :=
  if !env.workspaceExists agent then (true, false)
  else if !env.hasPackageManager then (true, false)
  else if !env.testPasses agent then (false, false)
  else (true, true)

/-- Trace of an integration run: agents attempted and agents whose merge was
committed. -/
structure IntegrationTrace where
  attempted : List String
  committed : List String
deriving DecidableEq, Repr

/-- The merge loop of `integrate_parallel_work`: walk the integration order,
stop (`sys.exit(1)`) at the first agent whose `integrate_agent` fails;
already-committed agents remain committed. -/
def runIntegration (env : IntegrationEnv) :
    List String → IntegrationTrace → IntegrationTrace × Bool
  | [], st => (st, true)
  | a :: rest, st =>
      let r := integrateAgent env a
      let st' : IntegrationTrace :=
        ⟨st.attempted ++ [a], st.committed ++ (if r.2 then [a] else [])⟩
      if r.1 then runIntegration env rest st' else (st', false)

/-- Exclusive ownership of a finished plan: no file path belongs to the
create/modify set of two different agents. -/
def planExclusive (p : DeploymentPlan) : Prop :=
  p.parallelAgents.Pairwise (fun a b =>
    ∀ f, f ∈ a.filesToCreate ++ a.filesToModify →
      f ∉ b.filesToCreate ++ b.filesToModify)

/-- All files of an agent (create then modify), as traversed by
`validate_no_conflicts`. -/
def agentFiles (a : Agent) : List String :=
  a.files_to_create ++ a.files_to_modify

/-- The spec's test scenario: requirement text
`"1. Implement JWT auth login\n2. Add API endpoint for validation"`. -/
def scenarioDescription : String :=
  "1. Implement JWT auth login\n2. Add API endpoint for validation"

/-- The issue built from the scenario description (as `load_linear_issue`
would from a cached record). -/
def scenarioIssue : LinearIssue :=
  issueFromCache "TEST-1" "Parallel work" scenarioDescription

/-- An LLM analysis result whose two agents both claim
`shared/config.ts`; confidence above the 0.8 threshold. -/
def conflictLLMResult : LLMResult :=
  { confidence := mkRat 9 10
    agents :=
      [ ⟨"alpha_agent", "Alpha", "Alpha", [], ["shared/config.ts", "a.ts"], [], 20⟩,
        ⟨"beta_agent", "Beta", "Beta", [], ["shared/config.ts", "b.ts"], [], 20⟩ ]
    projectType := "nextjs"
    reasoning := "overlapping plan"
    parallelizationStrategy := "by feature" }

/-- A low-confidence LLM result (used to exercise the fallback branch). -/
def lowConfidenceLLMResult : LLMResult :=
  { confidence := mkRat 1 2
    agents := []
    projectType := "nextjs"
    reasoning := "uncertain"
    parallelizationStrategy := "none" }

/-- Concrete integration environment for the halt-on-failure scenario: every
workspace exists, a package manager is installed, and only agent `"y"`
fails its incremental test gate. -/
def haltEnv : IntegrationEnv :=
  { workspaceExists := fun _ => true
    hasPackageManager := true
    testPasses := fun a => a != "y" }

/-- The observable outputs the determinism property ranges over: the
domain-to-path assignment and each agent's create/modify file sets. -/
def decompositionObservables (table : List PatternRule) (reqs : List String) :
    List (String × List String) × List (String × List String × List String) :=
  let m := analyzeFileOperationsWith table reqs
  let g := domainGroups m
  (g, (generateExclusiveAgents m g).map (fun a =>
    (a.id, a.files_to_create, a.files_to_modify)))

/-- A one-agent list whose only agent depends on an id absent from the run
(used to exercise the scheduler fallback). -/
def danglingAgents : List Agent :=
  [ { id := "solo_agent", role := "Solo", focus_area := "Solo",
      dependencies := ["missing_agent"], files_to_create := ["solo.ts"],
      files_to_modify := [], test_contracts := [], validation_criteria := [],
      estimated_time := 10, requirements := [], can_start_immediately := false } ]

/-- Witness agent `backend_w`, depending on `data_w`. -/
def backendW : Agent :=
  { id := "backend_w", role := "Backend", focus_area := "Backend",
    dependencies := ["data_w"], files_to_create := ["api.ts"],
    files_to_modify := [], test_contracts := [], validation_criteria := [],
    estimated_time := 40, requirements := [], can_start_immediately := false }

/-- Witness agent `data_w`, with no dependencies. -/
def dataW : Agent :=
  { id := "data_w", role := "Data", focus_area := "Data",
    dependencies := [], files_to_create := ["db.ts"],
    files_to_modify := [], test_contracts := [], validation_criteria := [],
    estimated_time := 30, requirements := [], can_start_immediately := true }

/-- Agents with an acyclic, fully-resolvable dependency graph (used as the
ordering-soundness witness). -/
def acyclicAgents : List Agent := [backendW, dataW]

/-- Rank function witnessing acyclicity of `acyclicAgents`. -/
def acyclicRank (s : String) : Nat :=
  if s == "data_w" then 0 else 1

/-- The merged file-operation map of the scenario run. -/
def scenarioOps : List (String × List FileOperation) :=
  analyzeFileOperations scenarioIssue.requirements

/-- The agents synthesized by the scenario run. -/
def scenarioAgents : List Agent :=
  generateExclusiveAgents scenarioOps (domainGroups scenarioOps)

/-- The deployment plan the scenario run persists. -/
def scenarioPlan : DeploymentPlan :=
  generateDeploymentPlan scenarioIssue scenarioOps scenarioAgents

/-! ## Theorems -/

/-- Helper: `mkRat 4 5` is at most `mkRat 9 10`. -/
theorem fourFifths_le_nineTenths : (mkRat 4 5 : ℚ) ≤ mkRat 9 10 := by decide

/-- Helper: `mkRat 1 2` is below the `mkRat 4 5` threshold. -/
theorem half_lt_fourFifths : (mkRat 1 2 : ℚ) < mkRat 4 5 := by decide

/-- C3: with a package manager installed and both workspaces present, if the
incremental test gate passes for `x` and fails for `y`, the integration loop
over `[x, y, z]` commits `x`, attempts and fails on `y` (overall result
false, i.e. `sys.exit(1)`), and never attempts `z`; `x` stays committed. -/
theorem integration_halts_on_failure (env : IntegrationEnv) (x y z : String)
    (hwx : env.workspaceExists x = true) (hwy : env.workspaceExists y = true)
    (hpm : env.hasPackageManager = true)
    (htx : env.testPasses x = true) (hty : env.testPasses y = false) :
    runIntegration env [x, y, z] ⟨[], []⟩ = (⟨[x, y], [x]⟩, false) := by
  simp [runIntegration, integrateAgent, hwx, hwy, hpm, htx, hty]

/-- Witness for C3: the concrete environment where only `"y"` fails. -/
theorem integration_halts_on_failure_witness :
    runIntegration haltEnv ["x", "y", "z"] ⟨[], []⟩ = (⟨["x", "y"], ["x"]⟩, false) :=
  integration_halts_on_failure haltEnv "x" "y" "z" rfl rfl rfl rfl rfl

/-- C6: with hybrid analysis enabled and an analyzer result available, the
run adopts the converted analyzer output as the deployment plan exactly when
its confidence is at least 0.8, and otherwise runs the pattern-based
pipeline instead. -/
theorem hybrid_confidence_threshold (r : LLMResult) (issue : LinearIssue) :
    (mkRat 4 5 ≤ r.confidence →
      decompose true (some r) issue = .ok (convertLLMResultToPlan issue r)) ∧
    (r.confidence < mkRat 4 5 →
      decompose true (some r) issue = patternDecompose issue) := by
  constructor
  · intro h
    simp [decompose, tryHybridAnalysis, ge_iff_le, h]
  · intro h
    simp [decompose, tryHybridAnalysis, ge_iff_le, not_le.mpr h, patternDecompose]

/-- Witness for C6: a confidence of 9/10 adopts the analyzer plan, a
confidence of 1/2 falls back to the pattern-based pipeline. -/
theorem hybrid_confidence_threshold_witness :
    decompose true (some conflictLLMResult) scenarioIssue
        = .ok (convertLLMResultToPlan scenarioIssue conflictLLMResult) ∧
    decompose true (some lowConfidenceLLMResult) scenarioIssue
        = patternDecompose scenarioIssue :=
  ⟨(hybrid_confidence_threshold conflictLLMResult scenarioIssue).1
      fourFifths_le_nineTenths,
    (hybrid_confidence_threshold lowConfidenceLLMResult scenarioIssue).2
      half_lt_fourFifths⟩

/-- Helper for C7: in `create_agent_context`, the aggregated
`canStartImmediately` flag is set iff the deduplicated union of the
instances' dependency lists is empty. -/
theorem allDepsEmpty_iff_dedup_nil (l : List AgentRecord) :
    (l.all (fun a => a.dependencies.length == 0) = true)
      ↔ (l.flatMap (fun a => a.dependencies)).dedup = [] := by
  rw [List.dedup_eq_nil, List.flatMap_eq_nil_iff, List.all_eq_true]
  constructor
  · intro h a ha
    simpa [List.length_eq_zero] using h a ha
  · intro h a ha
    simp [h a ha]

/-- C7: in all three producers of agent records — pattern-based synthesis
(`create_agent_for_domain`), LLM-result conversion (the agent constructor of
`convert_llm_result_to_deployment_plan`), and the spawn-time agent context
(`create_agent_context`) — the `canStartImmediately` flag is true exactly
when the record's dependency list is empty. -/
theorem canStart_iff_no_dependencies :
    (∀ (m : List (String × List FileOperation)) (domain : String)
        (files : List String),
        ((createAgentForDomain m domain files).can_start_immediately = true
          ↔ (createAgentForDomain m domain files).dependencies = []))
  ∧ (∀ d : LLMAgentData,
        ((convertLLMAgent d).can_start_immediately = true
          ↔ (convertLLMAgent d).dependencies = []))
  ∧ (∀ (plan : DeploymentPlan) (agentId branchName worktreePath : String),
        ((createAgentContext plan agentId branchName worktreePath).canStartImmediately
            = true
          ↔ (createAgentContext plan agentId branchName worktreePath).dependencies
            = [])) := by
  refine ⟨?_, ?_, ?_⟩
  · intro m domain files
    simp [createAgentForDomain, List.isEmpty_iff]
  · intro d
    simp [convertLLMAgent, List.isEmpty_iff]
  · intro plan agentId branchName worktreePath
    simpa [createAgentContext] using
      allDepsEmpty_iff_dedup_nil
        (plan.parallelAgents.filter (fun a => a.agentId == agentId))

/-- C9: two decomposition runs over the same requirement text with the same
rule table yield the same domain-to-path assignment and the same per-agent
create/modify file sets. -/
theorem decomposition_deterministic (table : List PatternRule)
    (reqs : List String)
    (run1 run2 : List (String × List String) × List (String × List String × List String))
    (h1 : run1 = decompositionObservables table reqs)
    (h2 : run2 = decompositionObservables table reqs) :
    run1 = run2 := by
  rw [h1, h2]

/-- Witness for C9: the two runs agree on the scenario text. -/
theorem decomposition_deterministic_witness :
    decompositionObservables patterns scenarioIssue.requirements
      = decompositionObservables patterns scenarioIssue.requirements :=
  decomposition_deterministic patterns scenarioIssue.requirements _ _ rfl rfl

/-- Helper: any document serialized from an `exclusive_ownership` plan lacks
a top-level `integration_order` key, so the integration reader rejects it. -/
theorem planDoc_rejected (p : DeploymentPlan)
    (h : p.decompositionStrategy = "exclusive_ownership") :
    integrationReadMergeOrder (planToDoc p) = .error "Invalid deployment plan format" := by
  simp [planToDoc, h, integrationReadMergeOrder, docTruthy, docHasKey]

/-- C2 (divergence): every plan the pattern-based decomposer persists —
whose merge order lives under `integrationPlan.mergeOrder` — is rejected by
`integrate_parallel_work`, which looks for a top-level `integration_order`
key and exits with "Invalid deployment plan format"; the integration stage
therefore never reads `integrationPlan.mergeOrder` from a persisted plan. -/
theorem persisted_plan_rejected_by_integration (issue : LinearIssue)
    (plan : DeploymentPlan) (h : patternDecompose issue = .ok plan) :
    integrationReadMergeOrder (planToDoc plan)
      = .error "Invalid deployment plan format" := by
  have hs : plan.decompositionStrategy = "exclusive_ownership" := by
    unfold patternDecompose patternDecomposeWith at h
    dsimp only at h
    split at h
    · exact absurd h (by simp)
    · split at h
      · exact absurd h (by simp)
      · injection h with h
        subst h
        rfl
  exact planDoc_rejected plan hs

/-- Witness for C2: the scenario plan is rejected by the integration stage. -/
theorem persisted_plan_rejected_by_integration_witness :
    integrationReadMergeOrder (planToDoc scenarioPlan)
      = .error "Invalid deployment plan format" :=
  persisted_plan_rejected_by_integration scenarioIssue scenarioPlan rfl

/-- C8 (counterexample): the scenario text does not produce exactly the two
domains `auth` (4 files) and `backend` (4 files): the word "validation" in
the second requirement also matches the `forms` rule. -/
theorem scenario_not_two_domains :
    ¬ ((domainGroups scenarioOps).map (fun p => (p.1, p.2.length))
        = [("auth", 4), ("backend", 4)]) := by decide

/-- C8 (amended): the scenario text produces three domains — `auth` (4
files), `forms` (4 files) and `backend` (4 files) — the conflict validator
passes, after `auth_agent` and `forms_agent` are scheduled the remaining
`backend_agent` is never ready (its dependency `data_agent` is absent), and
the fallback appends it, giving merge order
`[auth_agent, forms_agent, backend_agent]`. -/
theorem scenario_three_domains :
    (domainGroups scenarioOps).map (fun p => (p.1, p.2.length))
        = [("auth", 4), ("forms", 4), ("backend", 4)]
  ∧ validateNoConflicts scenarioAgents = .ok ()
  ∧ (scenarioAgents.map (fun a => (a.id, a.dependencies)))
        = [("auth_agent", []), ("forms_agent", ["auth_agent"]),
            ("backend_agent", ["data_agent"])]
  ∧ (scenarioAgents.drop 2).filter (readyB ["auth_agent", "forms_agent"]) = []
  ∧ calculateMergeOrder scenarioAgents
        = ["auth_agent", "forms_agent", "backend_agent"] :=
  ⟨rfl, rfl, rfl, rfl, rfl⟩

/-- C1 (counterexample): a decomposition run through the LLM-hybrid path
completes and returns a deployment plan in which `shared/config.ts` belongs
to the create set of both `alpha_agent` and `beta_agent`: the hybrid path
performs no conflict validation. -/
theorem llm_hybrid_plan_not_exclusive :
    decompose true (some conflictLLMResult) scenarioIssue
        = .ok (convertLLMResultToPlan scenarioIssue conflictLLMResult)
    ∧ ¬ planExclusive (convertLLMResultToPlan scenarioIssue conflictLLMResult) := by
  refine ⟨rfl, ?_⟩
  unfold planExclusive
  decide

/-- Helper: `addOp` introduces at most the key `k`. -/
theorem addOp_keys_subset {m : List (String × List FileOperation)}
    {k x : String} {e : FileOperation}
    (h : x ∈ (addOp m k e).map Prod.fst) : x ∈ m.map Prod.fst ∨ x = k := by
  induction m with
  | nil =>
      simp only [addOp, List.map_cons, List.map_nil, List.mem_singleton] at h
      exact Or.inr h
  | cons p rest ih =>
      obtain ⟨k', es⟩ := p
      by_cases hk : k' == k
      · simp only [addOp, if_pos hk, List.map_cons, List.mem_cons] at h ⊢
        exact h.elim (fun h1 => Or.inl (Or.inl h1)) (fun h1 => Or.inl (Or.inr h1))
      · simp only [addOp, if_neg hk, List.map_cons, List.mem_cons] at h ⊢
        rcases h with h1 | h1
        · exact Or.inl (Or.inl h1)
        · rcases ih h1 with h2 | h2
          · exact Or.inl (Or.inr h2)
          · exact Or.inr h2

/-- Helper: `addOp` preserves distinctness of the file keys of
`all_file_operations`. -/
theorem addOp_keys_nodup {m : List (String × List FileOperation)}
    (k : String) (e : FileOperation) (h : (m.map Prod.fst).Nodup) :
    ((addOp m k e).map Prod.fst).Nodup := by
  induction m with
  | nil => simp [addOp]
  | cons p rest ih =>
      obtain ⟨k', es⟩ := p
      simp only [List.map_cons, List.nodup_cons] at h
      by_cases hk : k' == k
      · simp only [addOp, if_pos hk, List.map_cons, List.nodup_cons]
        exact ⟨h.1, h.2⟩
      · simp only [addOp, if_neg hk, List.map_cons, List.nodup_cons]
        refine ⟨fun hmem => ?_, ih h.2⟩
        rcases addOp_keys_subset hmem with h2 | h2
        · exact h.1 h2
        · exact hk (by simp [h2])

/-- Helper: folding `addOp` over any operation list preserves key
distinctness. -/
theorem foldl_addOp_keys_nodup (ops : List (String × FileOperation))
    (m : List (String × List FileOperation)) (h : (m.map Prod.fst).Nodup) :
    (((ops.foldl (fun m fo => addOp m fo.1 fo.2) m)).map Prod.fst).Nodup := by
  induction ops generalizing m with
  | nil => exact h
  | cons fo rest ih => exact ih _ (addOp_keys_nodup _ _ h)

/-- Helper: the merged file-operation map has pairwise-distinct file keys,
for every rule table and requirement list. -/
theorem analyze_keys_nodup (table : List PatternRule) (reqs : List String) :
    ((analyzeFileOperationsWith table reqs).map Prod.fst).Nodup := by
  unfold analyzeFileOperationsWith
  suffices h : ∀ (rs : List String) (m : List (String × List FileOperation)),
      (m.map Prod.fst).Nodup →
      ((rs.foldl (fun m req => (extractFileOperationsWith table req).foldl
        (fun m fo => addOp m fo.1 fo.2) m) m).map Prod.fst).Nodup from
    h reqs [] (by simp)
  intro rs
  induction rs with
  | nil => exact fun m hm => hm
  | cons r rest ih =>
      intro m hm
      exact ih _ (foldl_addOp_keys_nodup _ _ hm)

/-- Helper: appending a file to its domain group adds exactly that file to
the flattened group contents. -/
theorem groupAdd_flatten_perm (g : List (String × List String)) (d f : String) :
    ((groupAdd g d f).flatMap (fun p => p.2)).Perm
      ((g.flatMap (fun p => p.2)) ++ [f]) := by
  induction g with
  | nil => simp [groupAdd]
  | cons p rest ih =>
      obtain ⟨k, fs⟩ := p
      by_cases hk : k == d
      · simp only [groupAdd, if_pos hk, List.flatMap_cons, List.append_assoc]
        exact List.Perm.append_left fs List.perm_append_comm
      · simp only [groupAdd, if_neg hk, List.flatMap_cons, List.append_assoc]
        exact List.Perm.append_left fs ih

/-- Helper: the flattened contents of the domain groups are a permutation of
the keys of the file-operation map. -/
theorem domainGroups_flatten_perm (m : List (String × List FileOperation)) :
    ((domainGroups m).flatMap (fun p => p.2)).Perm (m.map Prod.fst) := by
  unfold domainGroups
  suffices h : ∀ (rest : List (String × List FileOperation))
      (g : List (String × List String)),
      ((rest.foldl (fun g p => groupAdd g (p.2.headD defaultFO).domain p.1) g).flatMap
          (fun p => p.2)).Perm
        ((g.flatMap (fun p => p.2)) ++ rest.map Prod.fst) by
    simpa using h m []
  intro rest
  induction rest with
  | nil => intro g; simp
  | cons p t ih =>
      intro g
      refine (ih _).trans ?_
      refine (List.Perm.append_right (t.map Prod.fst)
        (groupAdd_flatten_perm g (p.2.headD defaultFO).domain p.1)).trans ?_
      simp

/-- Helper: the duplicate-path loop succeeds on a duplicate-free file
sequence disjoint from the already-seen set. -/
theorem checkSeen_ok (files : List String) (seen : List String)
    (hnd : files.Nodup) (hdisj : ∀ f ∈ files, f ∉ seen) :
    checkSeen files seen = .ok () := by
  induction files generalizing seen with
  | nil => rfl
  | cons f rest ih =>
      simp only [List.nodup_cons] at hnd
      simp only [checkSeen, if_neg (hdisj f (by simp))]
      refine ih _ hnd.2 ?_
      intro x hx
      simp only [List.mem_cons, not_or]
      exact ⟨fun he => hnd.1 (he ▸ hx), hdisj x (by simp [hx])⟩

/-- Helper: with pairwise-distinct file keys, `create_exclusive_domains`
returns its groups and never reaches the duplicate-path `ValueError`. -/
theorem createExclusiveDomains_ok (m : List (String × List FileOperation))
    (h : (m.map Prod.fst).Nodup) :
    createExclusiveDomains m = .ok (domainGroups m) := by
  have hperm := domainGroups_flatten_perm m
  have hnd : ((domainGroups m).flatMap (fun p => p.2)).Nodup :=
    hperm.nodup_iff.mpr h
  unfold createExclusiveDomains
  rw [checkSeen_ok _ [] hnd (by simp)]


/-- Helper: an agent's create/modify sets are the partition of its domain's
files, hence a permutation of them. -/
theorem agentFiles_perm (m : List (String × List FileOperation))
    (d : String) (files : List String) :
    (agentFiles (createAgentForDomain m d files)).Perm files := by
  unfold agentFiles createAgentForDomain
  simpa using List.filter_append_perm _ files

/-- Helper: the flattened file claims of the synthesized agents are a
permutation of the flattened domain groups. -/
theorem generateAgents_flatten_perm (m : List (String × List FileOperation))
    (ds : List (String × List String)) :
    ((generateExclusiveAgents m ds).flatMap agentFiles).Perm
      (ds.flatMap (fun p => p.2)) := by
  induction ds with
  | nil => simp [generateExclusiveAgents]
  | cons p rest ih =>
      simp only [generateExclusiveAgents, List.map_cons, List.flatMap_cons] at *
      exact (agentFiles_perm m p.1 p.2).append ih

/-- Helper: `claimFiles` succeeds on duplicate-free files disjoint from the
ownership map, and extends the map's keys by exactly those files. -/
theorem claimFiles_ok (files : List String) (aid : String)
    (own : List (String × String)) (hnd : files.Nodup)
    (hdisj : ∀ f ∈ files, f ∉ own.map Prod.fst) :
    ∃ own', claimFiles files aid own = .ok own'
      ∧ own'.map Prod.fst = own.map Prod.fst ++ files := by
  induction files generalizing own with
  | nil => exact ⟨own, rfl, by simp⟩
  | cons f rest ih =>
      simp only [List.nodup_cons] at hnd
      have hf : own.any (fun p => p.1 == f) = false := by
        simp only [List.any_eq_true, beq_iff_eq, Bool.not_eq_true] at *
        rw [Bool.eq_false_iff]
        intro hc
        simp only [List.any_eq_true, beq_iff_eq] at hc
        obtain ⟨p, hp, hpf⟩ := hc
        exact hdisj f (by simp) (by
          simpa [hpf] using List.mem_map_of_mem Prod.fst hp)
      simp only [claimFiles, hf, Bool.false_eq_true, if_false]
      obtain ⟨own', h1, h2⟩ := ih (own ++ [(f, aid)]) hnd.2 (by
        intro x hx
        simp only [List.map_append, List.mem_append, List.map_cons,
          List.map_nil, List.mem_singleton, not_or]
        exact ⟨hdisj x (by simp [hx]), fun he => hnd.1 (he ▸ hx)⟩)
      refine ⟨own', h1, ?_⟩
      rw [h2]
      simp

/-- Helper: `validate_no_conflicts` succeeds whenever the concatenation of
the ownership keys and all agents' file claims is duplicate-free. -/
theorem validateNoConflictsGo_ok (agents : List Agent)
    (own : List (String × String))
    (h : (own.map Prod.fst ++ agents.flatMap agentFiles).Nodup) :
    validateNoConflictsGo agents own = .ok () := by
  induction agents generalizing own with
  | nil => rfl
  | cons a rest ih =>
      rw [List.flatMap_cons, ← List.append_assoc] at h
      have h2 := h
      rw [List.nodup_append] at h2
      have hsplit := h2.1
      rw [List.nodup_append] at hsplit
      obtain ⟨own', hc, hk⟩ := claimFiles_ok (agentFiles a) a.id own
        hsplit.2.1 (fun f hf => fun hmem => hsplit.2.2 hmem hf)
      have hstep : validateNoConflictsGo (a :: rest) own
          = validateNoConflictsGo rest own' := by
        show (match claimFiles (a.files_to_create ++ a.files_to_modify) a.id own with
          | Except.error e => Except.error e
          | Except.ok own2 => validateNoConflictsGo rest own2)
            = validateNoConflictsGo rest own'
        rw [show a.files_to_create ++ a.files_to_modify = agentFiles a from rfl,
          hc]
      rw [hstep]
      exact ih own' (by rw [hk]; exact h)

/-- Helper: the flattened file claims of the agents of a pattern-based run
are duplicate-free, for every rule table. -/
theorem pattern_agents_flatten_nodup (table : List PatternRule)
    (reqs : List String) :
    ((generateExclusiveAgents (analyzeFileOperationsWith table reqs)
        (domainGroups (analyzeFileOperationsWith table reqs))).flatMap
      agentFiles).Nodup := by
  have h1 := analyze_keys_nodup table reqs
  have h2 := domainGroups_flatten_perm (analyzeFileOperationsWith table reqs)
  have h3 := generateAgents_flatten_perm (analyzeFileOperationsWith table reqs)
    (domainGroups (analyzeFileOperationsWith table reqs))
  exact (h3.trans h2).nodup_iff.mpr h1

/-- C10: in every pattern-based decomposition run, for every rule table, the
two ownership-conflict error branches are unreachable — the duplicate-path
check of `create_exclusive_domains` returns the groups, and
`validate_no_conflicts` succeeds on the synthesized agents. -/
theorem conflict_branches_unreachable (table : List PatternRule)
    (reqs : List String) :
    createExclusiveDomains (analyzeFileOperationsWith table reqs)
        = .ok (domainGroups (analyzeFileOperationsWith table reqs))
    ∧ validateNoConflicts
        (generateExclusiveAgents (analyzeFileOperationsWith table reqs)
          (domainGroups (analyzeFileOperationsWith table reqs))) = .ok () := by
  refine ⟨createExclusiveDomains_ok _ (analyze_keys_nodup table reqs), ?_⟩
  exact validateNoConflictsGo_ok _ []
    (by simpa using pattern_agents_flatten_nodup table reqs)

/-- Helper: duplicate-freeness of the flattened file claims yields pairwise
disjointness of the agents' claims. -/
theorem flatten_nodup_pairwise_disjoint (agents : List Agent)
    (h : (agents.flatMap agentFiles).Nodup) :
    agents.Pairwise (fun a b => ∀ f, f ∈ agentFiles a → f ∉ agentFiles b) := by
  have hj : (agents.map agentFiles).flatten.Nodup := by
    simpa [List.flatMap_def] using h
  have hp := (List.nodup_flatten.mp hj).2
  rw [List.pairwise_map] at hp
  exact hp.imp (fun hd => fun f hf hg => hd hf hg)

/-- C1 (amended): every pattern-based decomposition run that completes and
returns a deployment plan satisfies exclusivity — no file path appears in
the create/modify set of more than one agent; the LLM-hybrid path gives no
such guarantee (see the counterexample). -/
theorem pattern_plan_exclusive (table : List PatternRule)
    (issue : LinearIssue) (plan : DeploymentPlan)
    (h : patternDecomposeWith table issue = .ok plan) :
    planExclusive plan := by
  unfold patternDecomposeWith at h
  dsimp only at h
  cases hcd : createExclusiveDomains (analyzeFileOperationsWith table issue.requirements) with
  | error e => rw [hcd] at h; exact absurd h (by simp)
  | ok doms =>
      rw [hcd] at h
      dsimp only at h
      cases hv : validateNoConflicts (generateExclusiveAgents
          (analyzeFileOperationsWith table issue.requirements) doms) with
      | error e => rw [hv] at h; exact absurd h (by simp)
      | ok u =>
          rw [hv] at h
          simp only [Except.ok.injEq] at h
          subst h
          have hdg : doms
              = domainGroups (analyzeFileOperationsWith table issue.requirements) := by
            unfold createExclusiveDomains at hcd
            split at hcd
            · exact absurd hcd (by simp)
            · simp only [Except.ok.injEq] at hcd
              exact hcd.symm
          subst hdg
          have hnd := pattern_agents_flatten_nodup table issue.requirements
          have hpw := flatten_nodup_pairwise_disjoint _ hnd
          unfold planExclusive generateDeploymentPlan
          simp only [List.pairwise_map]
          exact hpw.imp (fun hd => fun f hf => hd f hf)

/-- Witness for C1 (amended): the scenario run's plan is exclusive. -/
theorem pattern_plan_exclusive_witness : planExclusive scenarioPlan :=
  pattern_plan_exclusive patterns scenarioIssue scenarioPlan rfl

/-- Helper: the scheduler's output is the ordered prefix followed by some
suffix. -/
theorem mergeOrderFuel_prefix (fuel : Nat) :
    ∀ (remaining : List Agent) (ordered : List String),
    ∃ s, mergeOrderFuel fuel remaining ordered = ordered ++ s := by
  induction fuel with
  | zero => exact fun r o => ⟨_, rfl⟩
  | succ n ih =>
      intro r o
      cases hf : r.filter (readyB o) with
      | nil => exact ⟨r.map (·.id), by simp [mergeOrderFuel, hf]⟩
      | cons next t =>
          obtain ⟨s, hs⟩ := ih (r.erase next) (o ++ [next.id])
          exact ⟨next.id :: s, by simp [mergeOrderFuel, hf, hs]⟩

/-- Helper: the scheduler's output is a permutation of the ordered prefix
plus the ids of the remaining agents — nothing is lost or duplicated. -/
theorem mergeOrderFuel_perm (fuel : Nat) :
    ∀ (remaining : List Agent) (ordered : List String),
    (mergeOrderFuel fuel remaining ordered).Perm
      (ordered ++ remaining.map (·.id)) := by
  induction fuel with
  | zero => intro r o; exact List.Perm.refl _
  | succ n ih =>
      intro r o
      cases hf : r.filter (readyB o) with
      | nil => simp [mergeOrderFuel, hf]
      | cons next t =>
          have hmem : next ∈ r :=
            List.mem_of_mem_filter (by rw [hf]; exact List.mem_cons_self next t)
          have h1 : mergeOrderFuel (n + 1) r o
              = mergeOrderFuel n (r.erase next) (o ++ [next.id]) := by
            simp [mergeOrderFuel, hf]
          rw [h1]
          refine (ih _ _).trans ?_
          rw [List.append_assoc]
          refine List.Perm.append_left o ?_
          exact ((List.perm_cons_erase hmem).map (·.id)).symm

/-- Helper: every non-empty agent list has an element of minimal rank. -/
theorem exists_min_rank (l : List Agent) (rank : String → Nat) (h : l ≠ []) :
    ∃ a ∈ l, ∀ b ∈ l, rank a.id ≤ rank b.id := by
  induction l with
  | nil => exact absurd rfl h
  | cons x t ih =>
      cases t with
      | nil => exact ⟨x, by simp, by simp⟩
      | cons y s =>
          obtain ⟨a, ha, hmin⟩ := ih (by simp)
          by_cases hle : rank x.id ≤ rank a.id
          · refine ⟨x, by simp, ?_⟩
            intro b hb
            rcases List.mem_cons.mp hb with rfl | hb
            · exact le_refl _
            · exact hle.trans (hmin b hb)
          · refine ⟨a, by simp [ha], ?_⟩
            intro b hb
            rcases List.mem_cons.mp hb with rfl | hb
            · exact (not_le.mp hle).le
            · exact hmin b hb

/-- Helper (main induction for ordering soundness): if every dependency of
every remaining agent has smaller rank and resolves either to the ordered
prefix or to a remaining agent, then every remaining agent ends up in the
output strictly after all its dependencies. -/
theorem mergeOrderFuel_sound (fuel : Nat) :
    ∀ (remaining : List Agent) (ordered : List String) (rank : String → Nat),
    remaining.length ≤ fuel →
    (∀ a ∈ remaining, ∀ d ∈ a.dependencies,
        rank d < rank a.id ∧ (d ∈ ordered ∨ ∃ b ∈ remaining, b.id = d)) →
    ∀ a ∈ remaining, ∃ l1 l2,
      mergeOrderFuel fuel remaining ordered = l1 ++ a.id :: l2
        ∧ ∀ d ∈ a.dependencies, d ∈ l1 := by
  induction fuel with
  | zero =>
      intro remaining ordered rank hlen _ a ha
      have : remaining = [] := List.eq_nil_of_length_eq_zero (Nat.le_zero.mp hlen)
      subst this
      cases ha
  | succ n ih =>
      intro remaining ordered rank hlen H a ha
      cases hf : remaining.filter (readyB ordered) with
      | nil =>
          exfalso
          obtain ⟨m, hm, hmin⟩ :=
            exists_min_rank remaining rank (List.ne_nil_of_mem ha)
          have hrdy : readyB ordered m = false := by
            by_contra hc
            have hmf : m ∈ remaining.filter (readyB ordered) :=
              List.mem_filter.mpr ⟨hm, by simpa using hc⟩
            rw [hf] at hmf
            cases hmf
          have hex : ∃ d ∈ m.dependencies, d ∉ ordered := by
            unfold readyB at hrdy
            rw [List.all_eq_false] at hrdy
            obtain ⟨d, hd, hdf⟩ := hrdy
            exact ⟨d, hd, by simpa using hdf⟩
          obtain ⟨d, hd, hdm⟩ := hex
          obtain ⟨hrank, hsrc⟩ := H m hm d hd
          rcases hsrc with h1 | ⟨b, hb, rfl⟩
          · exact hdm h1
          · exact absurd (hmin b hb) (not_le.mpr hrank)
      | cons next t =>
          have hmemn : next ∈ remaining :=
            List.mem_of_mem_filter (by rw [hf]; exact List.mem_cons_self next t)
          have hrdyn : readyB ordered next = true :=
            List.of_mem_filter (l := remaining)
              (by rw [hf]; exact List.mem_cons_self next t)
          have hdepso : ∀ d ∈ next.dependencies, d ∈ ordered := by
            intro d hd
            have := List.all_eq_true.mp hrdyn d hd
            simpa using this
          have hstep : mergeOrderFuel (n + 1) remaining ordered
              = mergeOrderFuel n (remaining.erase next) (ordered ++ [next.id]) := by
            simp [mergeOrderFuel, hf]
          have hlen' : (remaining.erase next).length ≤ n := by
            rw [List.length_erase_of_mem hmemn]
            omega
          have H' : ∀ a' ∈ remaining.erase next, ∀ d ∈ a'.dependencies,
              rank d < rank a'.id
                ∧ (d ∈ ordered ++ [next.id]
                    ∨ ∃ b ∈ remaining.erase next, b.id = d) := by
            intro a' ha' d hd
            obtain ⟨hr, hs⟩ := H a' (List.mem_of_mem_erase ha') d hd
            refine ⟨hr, ?_⟩
            rcases hs with h1 | ⟨b, hb, rfl⟩
            · exact Or.inl (by simp [h1])
            · by_cases hbn : b = next
              · subst hbn
                exact Or.inl (by simp)
              · exact Or.inr ⟨b, (List.mem_erase_of_ne hbn).mpr hb, rfl⟩
          by_cases han : a = next
          · subst han
            obtain ⟨s, hs⟩ :=
              mergeOrderFuel_prefix n (remaining.erase a) (ordered ++ [a.id])
            refine ⟨ordered, s, ?_, hdepso⟩
            rw [hstep, hs, List.append_assoc]
            rfl
          · have ha' : a ∈ remaining.erase next := (List.mem_erase_of_ne han).mpr ha
            obtain ⟨l1, l2, he, hdl⟩ :=
              ih (remaining.erase next) (ordered ++ [next.id]) rank hlen' H' a ha'
            exact ⟨l1, l2, by rw [hstep]; exact he, hdl⟩

/-- C4: if every declared dependency names an agent present in the list and
the dependency graph is acyclic (witnessed by a rank function that strictly
decreases along dependency edges), then `calculate_merge_order` places each
agent strictly after every agent listed in its `dependencies`. -/
theorem merge_order_sound (agents : List Agent) (rank : String → Nat)
    (h : ∀ a ∈ agents, ∀ d ∈ a.dependencies,
        (∃ b ∈ agents, b.id = d) ∧ rank d < rank a.id) :
    ∀ a ∈ agents, ∀ d ∈ a.dependencies,
      ∃ l1 l2, calculateMergeOrder agents = l1 ++ a.id :: l2 ∧ d ∈ l1 := by
  intro a ha d hd
  obtain ⟨l1, l2, he, hdl⟩ :=
    mergeOrderFuel_sound agents.length agents [] rank (le_refl _)
      (fun a' ha' d' hd' => ⟨(h a' ha' d' hd').2, Or.inr (h a' ha' d' hd').1⟩)
      a ha
  exact ⟨l1, l2, he, hdl d hd⟩

/-- Witness for C4: on `[backend_w (depends on data_w), data_w]`, the
computed order places `backend_w` strictly after `data_w`. -/
theorem merge_order_sound_witness :
    ∃ l1 l2, calculateMergeOrder acyclicAgents = l1 ++ backendW.id :: l2
      ∧ "data_w" ∈ l1 :=
  merge_order_sound acyclicAgents acyclicRank (by decide) backendW
    (by decide) "data_w" (by decide)

/-- C5: for every list of agents — including lists with dangling or cyclic
dependencies — the scheduler terminates with an output that is a
permutation of the agents' ids (no agent is dropped, none duplicated, no
error), and whenever no remaining agent is ready it appends all remaining
agents in their original list order and stops. -/
theorem merge_order_total_and_fallback (agents : List Agent) :
    (calculateMergeOrder agents).Perm (agents.map (·.id))
  ∧ ∀ (fuel : Nat) (remaining : List Agent) (ordered : List String),
      remaining.filter (readyB ordered) = [] →
      mergeOrderFuel fuel remaining ordered = ordered ++ remaining.map (·.id) := by
  constructor
  · simpa using mergeOrderFuel_perm agents.length agents []
  · intro fuel remaining ordered hf
    cases fuel with
    | zero => rfl
    | succ n => simp [mergeOrderFuel, hf]

/-- Witness for C5: the single agent depending on the absent `missing_agent`
is appended by the fallback, and the output is a permutation of the ids. -/
theorem merge_order_total_and_fallback_witness :
    (calculateMergeOrder danglingAgents).Perm (danglingAgents.map (·.id))
    ∧ mergeOrderFuel 1 danglingAgents [] = [] ++ danglingAgents.map (·.id) :=
  ⟨(merge_order_total_and_fallback danglingAgents).1,
    (merge_order_total_and_fallback danglingAgents).2 1 danglingAgents []
      (by decide)⟩

end DecomposeParallel
